import Mathlib

/-!
Shallow embedding of the packspec conformance-test interpreter
(src/packspec/cli.py, with the older variant src/packspec/helpers.py),
together with theorems checking the natural-language specification.

Modelling conventions:
* Python values reachable in a spec document and in the scope are modelled
  by the inductive type `SVal`.  Python `None` is `SVal.null`; mappings are
  key-ordered association lists (Python dicts preserve insertion order);
  host callables are opaque names (`SVal.funcV`) interpreted by an
  environment `FnEnv`, mirroring the "package introspector returns opaque
  callables" boundary of the design.
* Python exceptions that the source code does not catch are modelled with
  `Except Unit`; code regions wrapped in `try/except` become total
  functions that map the error case to the `"ERROR"` sentinel.
* `copy.deepcopy` on these immutable-value models is the identity; in-place
  mutation of the scope becomes explicit state passing (the scope threads
  through `test_feature`).  Attribute lookup on primitives is modelled as
  the `getattr(owner, name, None)` default (`null`), and attribute
  assignment on non-mapping owners as the `AttributeError` that `setattr`
  raises on primitives.
* The emoji/click terminal rendering and the `text` field of a parsed
  feature are output-only and are not modelled.
-/

/-- Python values occurring in spec documents and scopes. -/
inductive SVal where
  | null : SVal
  | boolV : Bool → SVal
  | intV : Int → SVal
  | strV : String → SVal
  | listV : List SVal → SVal
  | tupleV : List SVal → SVal
  | dictV : List (String × SVal) → SVal
  | funcV : String → SVal
deriving Repr

mutual

/-- Python `==` on modelled values (structural; mappings compare as the
key-ordered association lists they are modelled by, and opaque callables by
identity of their host name). -/
def SVal.eqb : SVal → SVal → Bool
  | .null, .null => true
  | .boolV a, .boolV b => a == b
  | .intV a, .intV b => a == b
  | .strV a, .strV b => a == b
  | .listV a, .listV b => SVal.eqbList a b
  | .tupleV a, .tupleV b => SVal.eqbList a b
  | .dictV a, .dictV b => SVal.eqbPairs a b
  | .funcV a, .funcV b => a == b
  | _, _ => false

/-- Elementwise `SVal.eqb` on lists. -/
def SVal.eqbList : List SVal → List SVal → Bool
  | [], [] => true
  | x :: xs, y :: ys => SVal.eqb x y && SVal.eqbList xs ys
  | _, _ => false

/-- Pairwise `SVal.eqb` on association lists. -/
def SVal.eqbPairs : List (String × SVal) → List (String × SVal) → Bool
  | [], [] => true
  | (k, v) :: xs, (l, w) :: ys => k == l && SVal.eqb v w && SVal.eqbPairs xs ys
  | _, _ => false

end

/-- Lookup in an association list modelling a Python dict (`d.get(k)` is
`(assocGet d k).getD .null`). -/
def assocGet (ps : List (String × SVal)) (k : String) : Option SVal :=
  (ps.find? (fun p => p.1 = k)).map Prod.snd

/-- Python dict assignment `d[k] = v`: overwrite in place (keeping the key
position) or append a new key. -/
def dictSet (ps : List (String × SVal)) (k : String) (v : SVal) :
    List (String × SVal) :=
  if ps.any (fun p => p.1 = k) then
    ps.map (fun p => if p.1 = k then (k, v) else p)
  else
    ps ++ [(k, v)]

/-- Python `a.update(b)` on dicts. -/
def dictUpdate (a b : List (String × SVal)) : List (String × SVal) :=
  b.foldl (fun acc p => dictSet acc p.1 p.2) a

/-- Kernel-computable replacements for the position-based core string
functions: suffix test, prefix test, right drop, split on a character and
join with a separator, all running over the character list. -/
def strEndsWith (s t : String) : Bool := t.data.isSuffixOf s.data

/-- Prefix test over the character list. -/
def strStartsWith (s t : String) : Bool := t.data.isPrefixOf s.data

/-- Drop the last `n` characters. -/
def strDropRight (s : String) (n : Nat) : String :=
  String.mk (s.data.take (s.data.length - n))

/-- Auxiliary state machine for `splitOnChar`. -/
def splitOnCharAux (c : Char) : List Char → List Char → List String
  | [], acc => [String.mk acc.reverse]
  | x :: xs, acc =>
    if x = c then String.mk acc.reverse :: splitOnCharAux c xs []
    else splitOnCharAux c xs (x :: acc)

/-- Python `s.split(c)` for a one-character separator (`''.split(c)` is
`['']`, like in Python). -/
def splitOnChar (c : Char) (s : String) : List String :=
  splitOnCharAux c s.data []

/-- Python `sep.join(parts)`. -/
def joinWith (sep : String) : List String → String
  | [] => ""
  | [x] => x
  | x :: y :: t => x ++ sep ++ joinWith sep (y :: t)

/-- Decimal digits to a number. -/
def digitsToNat (ds : List Char) : Nat :=
  ds.foldl (fun n c => n * 10 + (c.toNat - '0'.toNat)) 0

/-- Python `int(s)` on the strings used as sequence indices: optional sign
followed by decimal digits (a `none` models the `ValueError`). -/
def pyInt? (s : String) : Option Int :=
  let core (ds : List Char) (sign : Int) : Option Int :=
    if ds ≠ [] ∧ ds.all Char.isDigit then
      some (sign * digitsToNat ds)
    else none
  match s.data with
  | '-' :: ds => core ds (-1)
  | '+' :: ds => core ds 1
  | ds => core ds 1

/-- Python `str.isupper()`: at least one cased character and no lowercase
character (ASCII model). -/
def pyIsUpper (s : String) : Bool :=
  s.data.any Char.isAlpha && s.data.all (fun c => !c.isLower)

/-- Truthiness of the tri-valued skip field (Python `None`/`True`/`False`).
The parser can also leave an empty-string filter group, which is falsy like
`None` and is collapsed to `none` here. -/
def skipTruthy : Option Bool → Bool
  | some true => true
  | _ => false

/-- Python `a or b` on the tri-valued skip values. -/
def pyOr (a b : Option Bool) : Option Bool :=
  if skipTruthy a then a else b

/-- Python `\w` on ASCII: letters, digits and underscore. -/
def wordChar (c : Char) : Bool := c.isAlphanum || c = '_'

/-- Tail test for the comment regex: the remainder must match `\w.*`. -/
def commentTailOk : List Char → Bool
  | [] => false
  | c :: _ => wordChar c

/-- Model of `re.match(r'^(?:(.*):)?(\w.*)$', s)` (cli.py line 130): the
greedy optional group captures up to the last `':'` whose remainder starts
with a word character; otherwise the whole string must start with a word
character.  `none` is a failed match (Python then raises `AttributeError`
on `match.groups()`). -/
def matchCommentEntry (s : List Char) : Option (Option (List Char) × List Char) :=
  match ((List.range s.length).filter
      (fun k => (s.getD k ' ' == ':') && commentTailOk (s.drop (k + 1)))).max? with
  | some k => some (some (s.take k), s.drop (k + 1))
  | none => if commentTailOk s then some (none, s) else none

/-- Filter evaluation (cli.py lines 132-134 and 142-144):
`filters = skip.split(':')`, then
`skip = (filters[0] == 'not') == ('py' in filters)`. -/
def computeSkip (s : String) : Bool :=
  let filters := splitOnChar ':' s
  (filters.headD "" == "not") == filters.contains "py"

/-- Resolve a captured filter group: a present, nonempty group is run
through `computeSkip`; an absent or empty group is falsy in Python
(`None` or `''`) and is collapsed to `none`. -/
def mkSkip : Option (List Char) → Option Bool
  | none => none
  | some [] => none
  | some cs => some (computeSkip (String.mk cs))

/-- Sub-match of `(?:([^=]*)=)?([^=].*)?$` against the remainder of the
left-hand key, with the backtracking of the Python engine: the assignment
group can only stop at the first `'='`; if the text after that `'='`
starts with another `'='` the engine retries with the assignment group
absent, and then the property group (which must not start with `'='`)
swallows the whole remainder. -/
def subMatchLeft (r : List Char) : Option (Option String × Option String) :=
  match r.findIdx? (fun c => c = '=') with
  | none =>
    match r with
    | [] => some (none, none)
    | _ :: _ => some (none, some (String.mk r))
  | some i =>
    match r.drop (i + 1) with
    | [] => some (some (String.mk (r.take i)), none)
    | c :: cs =>
      if c ≠ '=' then some (some (String.mk (r.take i)), some (String.mk (c :: cs)))
      else
        match r with
        | [] => none
        | c0 :: _ => if c0 = '=' then none else some (none, some (String.mk r))

/-- Model of `re.match(r'^(?:(.*):)?(?:([^=]*)=)?([^=].*)?$', left)`
(cli.py line 140), giving the `(skip, assign, property)` groups: the
greedy optional first group captures up to the last `':'` whose remainder
sub-matches; with no such `':'` the whole key must sub-match. -/
def matchLeft (s : List Char) :
    Option (Option (List Char) × Option String × Option String) :=
  match ((List.range s.length).filter
      (fun k => (s.getD k ' ' == ':') && (subMatchLeft (s.drop (k + 1))).isSome)).max? with
  | some k =>
    match subMatchLeft (s.drop (k + 1)) with
    | some (a, p) => some (some (s.take k), a, p)
    | none => none
  | none =>
    match subMatchLeft s with
    | some (a, p) => some (none, a, p)
    | none => none

/-- Parsed feature (cli.py `parse_feature` result).  A comment carries only
`comment` and `skip` in the Python dict; the other fields do not exist
there (reading them raises `KeyError`), so code paths reading them first
test `comment` in this model.  The human-readable `text` field is
rendering-only and is not modelled. -/
structure Feature where
  comment : Option String := none
  skip : Option Bool := none
  call : Bool := false
  assign : Option String := none
  property : Option String := none
  args : List SVal := []
  kwargs : List (String × SVal) := []
  result : SVal := .null
deriving Repr

/-- Python iteration `for item in right`: lists and tuples yield their
elements, strings yield one-character strings, dicts yield their keys;
iterating any other value raises `TypeError`. -/
def iterElems : SVal → Except Unit (List SVal)
  | .listV xs => .ok xs
  | .tupleV xs => .ok xs
  | .strV s => .ok (s.data.map (fun c => .strV (String.mk [c])))
  | .dictV ps => .ok (ps.map (fun p => .strV p.1))
  | _ => .error ()

/-- One step of the call right-hand-side loop (cli.py lines 159-168): a
single-key `==` mapping replaces the expected result, a single-key mapping
whose key ends in `=` adds a keyword argument, anything else is a
positional argument. -/
def parseCallItem (st : List SVal × List (String × SVal) × SVal) (item : SVal) :
    List SVal × List (String × SVal) × SVal :=
  let (args, kwargs, result) := st
  match item with
  | .dictV [(k, v)] =>
    if k = "==" then (args, kwargs, v)
    else if strEndsWith k "=" then (args, dictSet kwargs (strDropRight k 1) v, result)
    else (args ++ [item], kwargs, result)
  | _ => (args ++ [item], kwargs, result)

/-- cli.py `parse_feature`: turn one raw entry into a `Feature`.
`Except.error` models the uncaught Python exceptions that make an entry
malformed: the explicit `Exception('Non-valid feature')`, a failed regex
match followed by `None.groups()`, `.items()` on a non-mapping, indexing
an empty item list, or iterating a non-iterable right-hand side of a
call.  An empty-string assignment group is falsy in Python and never
compared successfully against `'PACKAGE'`, so it is collapsed to `none`. -/
def parse_feature (entry : SVal) : Except Unit Feature :=
  match entry with
  | .strV s =>
    match matchCommentEntry s.data with
    | none => .error ()
    | some (skipG, comment) =>
      .ok { comment := some (String.mk comment), skip := mkSkip skipG }
  | .dictV ((left, right) :: _) =>
    match matchLeft left.data with
    | none => .error ()
    | some (skipG, assignG, propG) =>
      let skip := mkSkip skipG
      let assign : Option String := match assignG with
        | some "" => none
        | x => x
      if assign = none ∧ propG = none then .error ()
      else
        let cp : Bool × Option String :=
          match propG with
          | none => (false, none)
          | some p =>
            if strEndsWith p "==" then (false, some (strDropRight p 2)) else (true, some p)
        if cp.1 then
          match iterElems right with
          | .error e => .error e
          | .ok items =>
            let acc := items.foldl parseCallItem ([], [], .null)
            .ok { skip, assign, call := true, property := cp.2,
                  args := acc.1, kwargs := acc.2.1, result := acc.2.2 }
        else
          .ok { skip, assign, call := false, property := cp.2, result := right }
  | .dictV [] => .error ()
  | _ => .error ()

/-- Python sequence indexing `xs[int(name)]` with negative indices; a
non-numeric name is a `ValueError`, an out-of-range index an
`IndexError`. -/
def seqIndex (xs : List SVal) (name : String) : Except Unit SVal :=
  match pyInt? name with
  | none => .error ()
  | some i =>
    let j : Int := if i < 0 then (xs.length : Int) + i else i
    if j < 0 then .error ()
    else
      match xs.get? j.toNat with
      | some v => .ok v
      | none => .error ()

/-- cli.py `get_property` (lines 343-348): mapping lookup defaults to
`None`, sequences index by `int(name)`, and any other owner falls back to
`getattr(owner, name, None)`, modelled as the `None` default because the
modelled primitive and callable values expose no public attributes. -/
def get_property (owner : SVal) (name : String) : Except Unit SVal :=
  match owner with
  | .dictV ps => .ok ((assocGet ps name).getD .null)
  | .listV xs => seqIndex xs name
  | .tupleV xs => seqIndex xs name
  | _ => .ok .null

/-- Walk a dotted path with `get_property` starting from the scope mapping
(cli.py lines 254-256 and 318-321). -/
def pathGet (scope : List (String × SVal)) (path : String) : Except Unit SVal :=
  (splitOnChar '.' path).foldlM get_property (SVal.dictV scope)

mutual

/-- cli.py `dereference_value` (lines 315-328): a single-key mapping whose
value is `None` is a reference marker and is replaced by the value at that
dotted path in the scope (the replacement is not dereferenced again);
other mappings and lists are dereferenced elementwise; everything else
(deep-copied in Python, the identity here) passes through unchanged.  A
failing path walk inside a marker is an uncaught exception. -/
def dereference_value (scope : List (String × SVal)) : SVal → Except Unit SVal
  | .dictV [(k, .null)] => pathGet scope k
  | .dictV ps => SVal.dictV <$> derefPairs scope ps
  | .listV xs => SVal.listV <$> derefList scope xs
  | v => .ok v

/-- Elementwise dereference of a list value. -/
def derefList (scope : List (String × SVal)) : List SVal → Except Unit (List SVal)
  | [] => .ok []
  | x :: xs => do
    let y ← dereference_value scope x
    let ys ← derefList scope xs
    .ok (y :: ys)

/-- Valuewise dereference of a mapping value. -/
def derefPairs (scope : List (String × SVal)) :
    List (String × SVal) → Except Unit (List (String × SVal))
  | [] => .ok []
  | (k, v) :: ps => do
    let w ← dereference_value scope v
    let ws ← derefPairs scope ps
    .ok ((k, w) :: ws)

end

mutual

/-- cli.py `normalize_value` (lines 331-340): a tuple becomes a list (its
elements are not visited), mapping values and list elements are normalized
recursively, everything else is unchanged. -/
def normalize_value : SVal → SVal
  | .tupleV xs => .listV xs
  | .dictV ps => .dictV (normPairs ps)
  | .listV xs => .listV (normList xs)
  | v => v

/-- Elementwise `normalize_value` on list elements. -/
def normList : List SVal → List SVal
  | [] => []
  | x :: xs => normalize_value x :: normList xs

/-- Valuewise `normalize_value` on mapping values. -/
def normPairs : List (String × SVal) → List (String × SVal)
  | [] => []
  | (k, v) :: ps => (k, normalize_value v) :: normPairs ps

end

/-- cli.py `set_property` (lines 351-355): mapping assignment, or
`setattr`, which raises `AttributeError` on primitive owners.  Python
would accept new attributes on a host callable; no modelled code path ever
reads such an attribute back, and writing one is modelled as an error. -/
def set_property (owner : SVal) (name : String) (v : SVal) : Except Unit SVal :=
  match owner with
  | .dictV ps => .ok (.dictV (dictSet ps name v))
  | _ => .error ()

/-- Python sequence item assignment `xs[int(name)] = child`. -/
def seqSet (xs : List SVal) (name : String) (child : SVal) :
    Except Unit (List SVal) :=
  match pyInt? name with
  | none => .error ()
  | some i =>
    let j : Int := if i < 0 then (xs.length : Int) + i else i
    if j < 0 ∨ xs.length ≤ j.toNat then .error ()
    else .ok (xs.set j.toNat child)

/-- Reinstall a mutated child in its parent.  Python mutates the child
obtained from `get_property` in place; rebuilding the parent functionally
models that mutation (a mapping inside a tuple can be mutated even though
the tuple itself is immutable). -/
def replaceAt (owner : SVal) (name : String) (child : SVal) : Except Unit SVal :=
  match owner with
  | .dictV ps => .ok (.dictV (dictSet ps name child))
  | .listV xs => SVal.listV <$> seqSet xs name child
  | .tupleV xs => SVal.tupleV <$> seqSet xs name child
  | _ => .error ()

/-- Assignment write-back (cli.py lines 272-278): walk the owner along
`names[:-1]` with `get_property` and assign into it with `set_property`;
the in-place mutation becomes a functional rebuild of the walked path. -/
def setValAt : SVal → List String → SVal → Except Unit SVal
  | owner, [last], v => set_property owner last v
  | owner, n :: m :: rest, v => do
    let child ← get_property owner n
    let child2 ← setValAt child (m :: rest) v
    replaceAt owner n child2
  | owner, [], _ => .ok owner

/-- Python `v is None` on modelled values. -/
def isNullV : SVal → Bool
  | .null => true
  | _ => false

/-- Success computation (cli.py line 281): with a non-`None` dereferenced
expected value the result must equal it; with `None` (the wildcard left by
a call entry without an explicit `==` marker) any non-`ERROR` result
passes. -/
def compareSuccess (result expected : SVal) : Bool :=
  match expected with
  | .null => !(result.eqb (.strV "ERROR"))
  | e => result.eqb e

/-- Host-callable interpretation: a named opaque callable applied to
positional and keyword arguments either returns a value or raises. -/
def FnEnv := String → List SVal → List (String × SVal) → Except Unit SVal

/-- Resolution and invocation inside the `try` of cli.py lines 252-261:
walk the dotted property from the scope, then call the resolved callable
or read it, and normalize the outcome.  Calling anything but a callable, a
callable that raises, or keyword arguments dereferenced into a non-mapping
are errors (caught by the caller). -/
def execInner (env : FnEnv) (scope : List (String × SVal)) (prop : String)
    (call : Bool) (args kwargs : SVal) : Except Unit SVal := do
  let v ← pathGet scope prop
  if call then
    match v, args, kwargs with
    | .funcV f, .listV as, .dictV ks => do
      let r ← env f as ks
      .ok (normalize_value r)
    | _, _, _ => .error ()
  else
    .ok (normalize_value v)

/-- Execute phase of `test_feature` (cli.py lines 249-264): the whole
resolution/invocation is wrapped in `try/except`, so every error becomes
the `"ERROR"` sentinel and the phase is a total function. -/
def executePhase (env : FnEnv) (scope : List (String × SVal)) (f : Feature)
    (args kwargs expected : SVal) : SVal :=
  match f.property with
  | none => expected
  | some p =>
    match execInner env scope p f.call args kwargs with
    | .ok v => v
    | .error _ => .strV "ERROR"

/-- cli.py `test_feature` (lines 226-299) with the terminal output
dropped: returns the feature's success and the updated scope, or an
`Except.error` for the exceptions the function does not catch (a failing
dereference, the constant-protection `raise`, or a failing assignment
write-back).  `ready` is `bool(spec['scope'])` computed by
`parse_specs`. -/
def test_feature (env : FnEnv) (f : Feature) (scope : List (String × SVal))
    (ready : Bool) : Except Unit (Bool × List (String × SVal)) :=
  if f.comment.isSome then .ok (true, scope)
  else if skipTruthy f.skip then .ok (true, scope)
  else do
    let args ← if f.call then dereference_value scope (.listV f.args)
               else .ok (.listV f.args)
    let kwargs ← if f.call then dereference_value scope (.dictV f.kwargs)
                 else .ok (.dictV f.kwargs)
    let expected ← dereference_value scope f.result
    let result := executePhase env scope f args kwargs expected
    match f.assign with
    | none => .ok (compareSuccess result expected, scope)
    | some a =>
      if a = "PACKAGE" ∧ ready = false then
        .ok (compareSuccess (.strV "ERROR") expected, scope)
      else do
        let names := splitOnChar '.' a
        let owner ← names.dropLast.foldlM get_property (SVal.dictV scope)
        let last := names.getLastD ""
        let cur ← get_property owner last
        if !(isNullV cur) && pyIsUpper last then .error ()
        else do
          let top ← setValAt (SVal.dictV scope) names result
          match top with
          | .dictV scope2 => .ok (compareSuccess result expected, scope2)
          | _ => .error ()

/-- Package-introspection boundary (cli.py `get_module_attributes`, lines
302-312): the host import machinery is the parameter `introspect`; a
failed import or a module with no public names is the empty mapping, and
underscore-prefixed names are filtered out. -/
def get_module_attributes (introspect : String → List (String × SVal))
    (m : String) : List (String × SVal) :=
  (introspect m).filter (fun p => !strStartsWith p.1 "_")

/-- Inner module loop of cli.py lines 109-113: try each module name in
order, merging its attributes into the namespace scope and stopping at the
first module with attributes; a non-string module name raises `TypeError`
inside `importlib` (uncaught).  Returns the final `attributes` variable
and the namespace scope. -/
def modulesLoop (introspect : String → List (String × SVal))
    (attrs nsScope : List (String × SVal)) :
    List SVal → Except Unit (List (String × SVal) × List (String × SVal))
  | [] => .ok (attrs, nsScope)
  | m :: rest =>
    match m with
    | .strV s =>
      let a := get_module_attributes introspect s
      let ns2 := dictUpdate nsScope a
      if a.isEmpty then modulesLoop introspect a ns2 rest
      else .ok (a, ns2)
    | _ => .error ()

/-- Namespace loop of cli.py lines 104-116 over the normalized package
mapping, accumulating the scope and the module-name list; when a namespace
yields no attributes the scope is reset to empty and the loop breaks. -/
def nsLoop (introspect : String → List (String × SVal)) :
    List (String × SVal) → List (String × SVal) → List SVal →
    List (String × SVal) → Except Unit (List (String × SVal) × List SVal)
  | [], scope, packages, _ => .ok (scope, packages)
  | (ns, mods) :: rest, scope, packages, attrs => do
    let modList ← iterElems mods
    let packages2 := packages ++ modList
    if ns = "default" then
      match modulesLoop introspect attrs scope modList with
      | .error e => .error e
      | .ok (attrs2, scope2) =>
        if attrs2.isEmpty then .ok ([], packages2)
        else nsLoop introspect rest scope2 packages2 attrs2
    else
      let nsScope := match assocGet scope ns with
        | some (.dictV l) => l
        | _ => []
      match modulesLoop introspect attrs nsScope modList with
      | .error e => .error e
      | .ok (attrs2, ns2) =>
        let scope2 := dictSet scope ns (.dictV ns2)
        if attrs2.isEmpty then .ok ([], packages2)
        else nsLoop introspect rest scope2 packages2 attrs2

/-- Normalization of the leading `PACKAGE` value (cli.py lines 81-88): a
string or list is wrapped into a `default` namespace, mapping values are
listified, anything else is kept raw (and later fails `.items()`). -/
def normalizePackage : SVal → SVal
  | .strV s => .dictV [("default", .listV [.strV s])]
  | .listV xs => .dictV [("default", .listV xs)]
  | .dictV ps => .dictV (ps.map (fun p => match p.2 with
      | .listV _ => p
      | v => (p.1, SVal.listV [v])))
  | v => v

/-- Insertion step for Python `sorted` on strings. -/
def insertStr (s : String) : List String → List String
  | [] => [s]
  | t :: ts => if s < t then s :: t :: ts else t :: insertStr s ts

/-- Python `sorted` on strings (code-point lexicographic). -/
def sortStrings (l : List String) : List String := l.foldr insertStr []

/-- Effectful map over `Except`, written structurally so that it both
computes by `rfl` and admits direct induction. -/
def exceptMapM {α β : Type} (f : α → Except Unit β) : List α → Except Unit (List β)
  | [] => .ok []
  | a :: t => do
    let b ← f a
    let bs ← exceptMapM f t
    .ok (b :: bs)

/-- Python `'/'.join(sorted(packages))` (cli.py line 117); a non-string
member is an uncaught `TypeError`. -/
def joinPackages (packages : List SVal) : Except Unit String := do
  let names ← exceptMapM (fun v => match v with
    | SVal.strV s => Except.ok s
    | _ => Except.error ()) packages
  .ok (joinWith "/" (sortStrings names))

/-- Parsed spec document (cli.py `parse_spec` result). -/
structure Spec where
  package : String
  features : List Feature
  scope : List (String × SVal)
deriving Repr

/-- cli.py `parse_spec` (lines 75-123) on the already-loaded YAML
document.  `Except.ok none` models the `return None` taken when the `try`
around the first entry fails (no first entry, a malformed first entry, a
comment first entry — whose dict has no `'result'` key, so reading it is a
`KeyError` — or a failed `PACKAGE`/skip assertion); `Except.error` models
the uncaught exceptions raised after that `try`: a malformed later entry,
a package value that is not a mapping after normalization, or a non-string
module or package name. -/
def parse_spec (introspect : String → List (String × SVal)) (doc : SVal) :
    Except Unit (Option Spec) :=
  match doc with
  | .listV (c0 :: rest) =>
    match parse_feature c0 with
    | .error _ => .ok none
    | .ok f0 =>
      if f0.comment.isSome then .ok none
      else if f0.assign ≠ some "PACKAGE" then .ok none
      else if skipTruthy f0.skip then .ok none
      else
        match exceptMapM parse_feature (c0 :: rest) with
        | .error e => .error e
        | .ok features =>
          match normalizePackage f0.result with
          | .dictV ps =>
            match nsLoop introspect ps [] [] [] with
            | .error e => .error e
            | .ok (scope, packages) =>
              match joinPackages packages with
              | .error e => .error e
              | .ok pkg => .ok (some { package := pkg, features, scope })
          | _ => .error ()
  | _ => .ok none

/-- Merge one parsed document into the package-keyed spec map (cli.py
lines 34-38): a first occurrence inserts, later occurrences of the same
package concatenate features and update the scope. -/
def mergeSpec (a b : Spec) : Spec :=
  { a with features := a.features ++ b.features,
           scope := dictUpdate a.scope b.scope }

/-- Insert or merge a parsed document in the spec map. -/
def addSpec (m : List (String × Spec)) (s : Spec) : List (String × Spec) :=
  if (m.find? (fun p => p.1 = s.package)).isSome then
    m.map (fun p => if p.1 = s.package then (p.1, mergeSpec p.2 s) else p)
  else m ++ [(s.package, s)]

/-- Document-collection phase of cli.py `parse_specs` (lines 25-38) over
the discovered documents in walk order. -/
def collectSpecs (introspect : String → List (String × SVal)) :
    List SVal → List (String × Spec) → Except Unit (List (String × Spec))
  | [], m => .ok m
  | d :: ds, m =>
    match parse_spec introspect d with
    | .error e => .error e
    | .ok none => collectSpecs introspect ds m
    | .ok (some s) => collectSpecs introspect ds (addSpec m s)

/-- Hook collection (cli.py lines 41-52): the names defined by the
executed `packspec.py` files are a host-environment parameter; underscore
names are dropped and a `$` prefix is added. -/
def hookMap (hooks : List (String × SVal)) : List (String × SVal) :=
  (hooks.filter (fun p => !strStartsWith p.1 "_")).map
    (fun p => ("$" ++ p.1, p.2))

/-- Aggregate counters of one spec document (cli.py line 59). -/
structure Stats where
  features : Nat := 0
  comments : Nat := 0
  tests : Nat := 0
deriving Repr, DecidableEq

/-- Spec document after the result-assembly phase of `parse_specs`. -/
structure ProcessedSpec where
  package : String
  features : List Feature
  scope : List (String × SVal)
  ready : Bool
  stats : Stats
deriving Repr

/-- Per-spec finishing loop of cli.py `parse_specs` (lines 60-69).  Python
iterates over a snapshot (`list(enumerate(...))`) of the feature list
while the live list may shrink: a `PACKAGE` assignment at nonzero snapshot
index deletes the entry at that index from the current live list (an
out-of-range index is an uncaught `IndexError`); every snapshot entry is
counted into the stats; a comment replaces the inherited skip state by its
own filter; and each feature object's skip becomes
`skip or feature['skip']`.  Live entries are tagged with their snapshot
position to model object identity through deletions. -/
def updateLive (live : List (Nat × Feature)) (i : Nat) (ns : Option Bool) :
    List (Nat × Feature) :=
  live.map (fun p => if p.1 = i then (p.1, { p.2 with skip := ns }) else p)

/-- Stats increments of one loop iteration (cli.py lines 63-68): every
snapshot entry counts as a feature and as either a comment or a test. -/
def statsStep (f : Feature) (stats : Stats) : Stats :=
  if f.comment.isSome then
    { stats with features := stats.features + 1,
                 comments := stats.comments + 1 }
  else
    { stats with features := stats.features + 1, tests := stats.tests + 1 }

def featLoop : List Feature → Nat → List (Nat × Feature) → Option Bool →
    Stats → Except Unit (List (Nat × Feature) × Stats)
  | [], _, live, _, stats => .ok (live, stats)
  | f :: fs, i, live, skip, stats => do
    let live1 ← if f.assign = some "PACKAGE" ∧ i ≠ 0 then
        (if i < live.length then .ok (live.eraseIdx i) else .error ())
      else .ok live
    let sk2 : Option Bool := if f.comment.isSome then f.skip else skip
    featLoop fs (i + 1) (updateLive live1 i (pyOr sk2 f.skip)) sk2
      (statsStep f stats)

/-- Result-assembly phase of cli.py `parse_specs` (lines 54-70) for one
spec: `ready` is the truthiness of the pre-hook scope, the features run
through `featLoop` starting from `skip = False`, and the hooks are merged
into the scope afterwards. -/
def processSpec (hookmap : List (String × SVal)) (s : Spec) :
    Except Unit ProcessedSpec := do
  let r ← featLoop s.features 0 s.features.enum (some false) {}
  .ok { package := s.package, features := r.1.map Prod.snd,
        scope := dictUpdate s.scope hookmap, ready := !s.scope.isEmpty,
        stats := r.2 }

/-- cli.py `parse_specs` (lines 22-72) over already-loaded documents: the
directory walk, file reading and YAML loading are host-environment
boundaries, so the function takes the decoded documents in discovery order
and the names defined by the hook files.  Documents whose first entry
fails to parse are dropped; a malformed later entry aborts the whole
run. -/
def parse_specs (introspect : String → List (String × SVal))
    (hooks : List (String × SVal)) (docs : List SVal) :
    Except Unit (List ProcessedSpec) := do
  let specmap ← collectSpecs introspect docs []
  let sortedKeys := sortStrings (specmap.map Prod.fst)
  let specs := sortedKeys.filterMap
    (fun k => (specmap.find? (fun p => p.1 = k)).map Prod.snd)
  exceptMapM (processSpec (hookMap hooks)) specs

/-- Feature loop of cli.py `test_spec` (lines 213-214): sequential
execution threading the shared scope, counting passed features. -/
def runFeatures (env : FnEnv) (ready : Bool) :
    List Feature → List (String × SVal) → Nat →
    Except Unit (Nat × List (String × SVal))
  | [], scope, passed => .ok (passed, scope)
  | f :: fs, scope, passed => do
    let r ← test_feature env f scope ready
    runFeatures env ready fs r.2 (passed + (if r.1 then 1 else 0))

/-- cli.py `test_spec` (lines 209-223) without the rendering: a document
succeeds when the passed count equals the counted features. -/
def test_spec (env : FnEnv) (s : ProcessedSpec) : Except Unit (Bool × Nat) := do
  let r ← runFeatures env s.ready s.features s.scope 0
  .ok (r.1 == s.stats.features, r.1)

/-- cli.py `test_specs` (lines 198-206): conjunction of the document
successes. -/
def test_specs (env : FnEnv) (specs : List ProcessedSpec) :
    Except Unit Bool := do
  let oks ← exceptMapM (fun s => (·.1) <$> test_spec env s) specs
  .ok (oks.all id)

namespace helpers

/-- helpers.py line 129: success iff the raw result equals the expected
value, or the result is not the `ERROR` sentinel and the expected value is
the literal `ANY` wildcard. -/
def verifySuccess (result expected : SVal) : Bool :=
  result.eqb expected ||
    (!(result.eqb (.strV "ERROR")) && expected.eqb (.strV "ANY"))

/-- helpers.py lines 68-72, the right-hand side of `parse_feature`: a list
value has its last element split off as the expected result and the rest
kept as call parameters — helpers has no explicit `==` marker and applies
this to every list, assignment target or not (an empty list raises
`IndexError`); any other value is the expected result of a plain read. -/
def parseRight : SVal → Except Unit (Option (List SVal) × SVal)
  | .listV [] => .error ()
  | .listV xs => .ok (some xs.dropLast, xs.getLastD .null)
  | v => .ok (none, v)

end helpers

/-- Statement helper: a call right-hand-side element that is an explicit
expected marker (single-key `==` mapping, cli.py lines 162-164). -/
def isExpectedMarker : SVal → Bool
  | .dictV [(k, _)] => decide (k = "==")
  | _ => false

/-- Statement helper: a call right-hand-side element parsed as a keyword
argument (cli.py lines 165-167). -/
def isKwargItem : SVal → Bool
  | .dictV [(k, _)] => !decide (k = "==") && strEndsWith k "="
  | _ => false

/-- Fixed host introspection used by the concrete loader scenarios: the
package `mypkg` exposes one public callable. -/
def introFix : String → List (String × SVal) :=
  fun m => if m = "mypkg" then [("add", .funcV "add")] else []

/-- Well-formed one-entry document for the loader scenarios. -/
def docPkgOnly : SVal := .listV [.dictV [("PACKAGE=", .strV "mypkg")]]

/-- Document with a valid `PACKAGE` head and a malformed second entry
(an integer has no `.items()`). -/
def docBadTail : SVal :=
  .listV [.dictV [("PACKAGE=", .strV "mypkg")], .intV 0]

/-- Declarative inherited skip state before snapshot index `i`: the
filter of the last comment among the first `i` features; `False` before
any comment (cli.py line 57 starts the loop state at `False`, and each
comment overwrites it with its own filter, line 65). -/
def inheritedSkip (fs : List Feature) (i : Nat) : Option Bool :=
  (fs.take i).foldl (fun st f => if f.comment.isSome then f.skip else st)
    (some false)

/-- Declarative final value of a feature after the skip-propagation loop:
comments keep their own filter, other features get
`skip or feature['skip']` with the inherited state. -/
def resolvedAt (fs : List Feature) (j : Nat) : Option Feature :=
  (fs[j]?).map (fun f =>
    if f.comment.isSome then f
    else { f with skip := pyOr (inheritedSkip fs j) f.skip })

/-- Document with a filtered comment followed by a feature carrying an
explicitly false own filter. -/
def docSkipDemo : SVal := .listV [
  .dictV [("PACKAGE=", .strV "mypkg")],
  .strV "not:py:Section one",
  .dictV [("py:f==", .strV "ERROR")]]

/-- Parsed features of `docSkipDemo`, as a concrete witness list. -/
def fsDemo : List Feature :=
  [{ assign := some "PACKAGE", result := .strV "mypkg" },
   { comment := some "Section one", skip := some true },
   { skip := some false, property := some "f", result := .strV "ERROR" }]

/-- Processed form of `docPkgOnly` under `introFix`, for the witness. -/
def psPkgOnly : ProcessedSpec :=
  { package := "mypkg",
    features := [{ assign := some "PACKAGE", result := .strV "mypkg" }],
    scope := [("add", .funcV "add")],
    ready := true,
    stats := { features := 1, comments := 0, tests := 1 } }

/-! Helper lemmas shared by the claim theorems. -/

theorem normList_eq_map (xs : List SVal) :
    normList xs = xs.map normalize_value := by
  induction xs with
  | nil => simp [normList]
  | cons x xs ih => simp [normList, ih]

theorem normPairs_eq_map (ps : List (String × SVal)) :
    normPairs ps = ps.map (fun p => (p.1, normalize_value p.2)) := by
  induction ps with
  | nil => simp [normPairs]
  | cons p ps ih => cases p; simp [normPairs, ih]

theorem parseCallItem_step (st : List SVal × List (String × SVal) × SVal)
    (it : SVal) (h : isExpectedMarker it = false) :
    ∃ kw2, parseCallItem st it =
      (st.1 ++ (if isKwargItem it then [] else [it]), kw2, st.2.2) := by
  obtain ⟨args, kwargs, res⟩ := st
  cases it with
  | dictV ps =>
    match ps with
    | [] => exact ⟨kwargs, rfl⟩
    | [(k, v)] =>
      by_cases hk : k = "=="
      · simp [isExpectedMarker, hk] at h
      · by_cases he : strEndsWith k "=" = true
        · refine ⟨dictSet kwargs (strDropRight k 1) v, ?_⟩
          simp [parseCallItem, isKwargItem, hk, he]
        · refine ⟨kwargs, ?_⟩
          simp [parseCallItem, isKwargItem, hk, he]
    | (a :: b :: t) => exact ⟨kwargs, by simp [parseCallItem, isKwargItem]⟩
  | null => exact ⟨kwargs, rfl⟩
  | boolV b => exact ⟨kwargs, rfl⟩
  | intV n => exact ⟨kwargs, rfl⟩
  | strV s => exact ⟨kwargs, rfl⟩
  | listV xs => exact ⟨kwargs, rfl⟩
  | tupleV xs => exact ⟨kwargs, rfl⟩
  | funcV f => exact ⟨kwargs, rfl⟩

theorem parseCallItems_no_marker (items : List SVal) :
    ∀ args kwargs, (∀ it ∈ items, isExpectedMarker it = false) →
    (items.foldl parseCallItem (args, kwargs, SVal.null)).2.2 = SVal.null ∧
    (items.foldl parseCallItem (args, kwargs, SVal.null)).1
      = args ++ items.filter (fun it => !isKwargItem it) := by
  induction items with
  | nil => intro args kwargs _; simp
  | cons it rest ih =>
    intro args kwargs h
    have hit : isExpectedMarker it = false := h it (by simp)
    have hrest : ∀ x ∈ rest, isExpectedMarker x = false :=
      fun x hx => h x (by simp [hx])
    obtain ⟨kw2, hstep⟩ := parseCallItem_step (args, kwargs, SVal.null) it hit
    rw [List.foldl_cons, hstep]
    rcases ih (args ++ (if isKwargItem it then [] else [it])) kw2 hrest with ⟨h1, h2⟩
    refine ⟨h1, ?_⟩
    rw [h2]
    by_cases hkw : isKwargItem it = true
    · simp [hkw, List.filter_cons]
    · simp only [Bool.not_eq_true] at hkw
      simp [hkw, List.filter_cons]

/-! Claim C8. -/

/-- C8 counterexample: `normalize_value` turns the outer tuple into a list
but leaves the tuple nested inside it untouched, so normalization is not
applied to elements nested inside tuples as the claim states. -/
theorem C8_counterexample :
    normalize_value (.tupleV [.intV 1, .tupleV [.intV 2, .intV 3]])
      = .listV [.intV 1, .tupleV [.intV 2, .intV 3]] ∧
    SVal.listV [.intV 1, .tupleV [.intV 2, .intV 3]]
      ≠ .listV [.intV 1, .listV [.intV 2, .intV 3]] := by
  refine ⟨rfl, ?_⟩
  intro h
  simp at h

/-- C8 amended: `normalize_value` maps every tuple to an ordered sequence
(list) without visiting the tuple's elements; normalization recurses only
through mapping values and list elements, and leaves scalars unchanged. -/
theorem C8_normalize_amended :
    (∀ xs, normalize_value (.tupleV xs) = .listV xs) ∧
    (∀ xs, normalize_value (.listV xs) = .listV (xs.map normalize_value)) ∧
    (∀ ps, normalize_value (.dictV ps)
        = .dictV (ps.map (fun p => (p.1, normalize_value p.2)))) ∧
    normalize_value .null = .null ∧
    (∀ b, normalize_value (.boolV b) = .boolV b) ∧
    (∀ n, normalize_value (.intV n) = .intV n) ∧
    (∀ s, normalize_value (.strV s) = .strV s) ∧
    (∀ f, normalize_value (.funcV f) = .funcV f) := by
  refine ⟨fun xs => rfl, fun xs => ?_, fun ps => ?_, rfl,
    fun b => rfl, fun n => rfl, fun s => rfl, fun f => rfl⟩
  · rw [normalize_value, normList_eq_map]
  · rw [normalize_value, normPairs_eq_map]

/-! Claim C1. -/

/-- C1: an executed feature passes iff the result equals the expected
value, or the result is not the `ERROR` sentinel and the expected value
is the `ANY` wildcard — the literal string `"ANY"` in the helpers
variant (`helpers.verifySuccess`, helpers.py line 129), the absent/`None`
expected value in the cli variant (`compareSuccess`, cli.py line 281) —
and a feature whose expected value is `ERROR` passes iff the result is
the `ERROR` sentinel. -/
theorem C1_compare_semantics :
    (∀ r e : SVal, helpers.verifySuccess r e
        = (r.eqb e || (!(r.eqb (.strV "ERROR")) && e.eqb (.strV "ANY")))) ∧
    (∀ r : SVal, helpers.verifySuccess r (.strV "ERROR")
        = r.eqb (.strV "ERROR")) ∧
    (∀ r e : SVal, compareSuccess r e
        = (r.eqb e || (!(r.eqb (.strV "ERROR")) && e.eqb .null))) ∧
    (∀ r : SVal, compareSuccess r (.strV "ERROR") = r.eqb (.strV "ERROR")) := by
  refine ⟨fun r e => rfl, fun r => ?_, fun r e => ?_, fun r => rfl⟩
  · simp [helpers.verifySuccess, SVal.eqb]
  · cases e <;> cases r <;> simp [compareSuccess, SVal.eqb]

/-! Claim C2. -/

/-- C2 counterexample: in the cli grammar a call entry whose right-hand
sequence has no explicit `==` marker keeps all three elements as
positional arguments and gets the `None` wildcard as expected value; the
last element is not split off as the claim states (the parsed expected
value is `null`, not `5`). -/
theorem C2_counterexample :
    parse_feature (.dictV [("add", .listV [.intV 2, .intV 3, .intV 5])])
      = .ok { comment := none, skip := none, call := true, assign := none,
              property := some "add", args := [.intV 2, .intV 3, .intV 5],
              kwargs := [], result := .null } ∧
    SVal.null ≠ .intV 5 := by
  refine ⟨rfl, ?_⟩
  intro h
  simp at h

/-- C2 amended: in the cli parser a call right-hand sequence without an
explicit `==` marker leaves the expected value as the `None` wildcard and
removes nothing from the positional arguments (only keyword items are
routed away); the take-the-last-element rule belongs to the helpers
variant, where every nonempty list right-hand side has its last element
split off as the expected value and the rest kept as parameters,
regardless of markers or assignment targets. -/
theorem C2_parse_right_amended :
    (∀ items : List SVal, (∀ it ∈ items, isExpectedMarker it = false) →
      (items.foldl parseCallItem ([], [], SVal.null)).2.2 = SVal.null ∧
      (items.foldl parseCallItem ([], [], SVal.null)).1
        = items.filter (fun it => !isKwargItem it)) ∧
    (∀ xs : List SVal, xs ≠ [] →
      helpers.parseRight (.listV xs) = .ok (some xs.dropLast, xs.getLastD .null)) := by
  constructor
  · intro items h
    have := parseCallItems_no_marker items [] [] h
    simpa using this
  · intro xs hxs
    cases xs with
    | nil => exact absurd rfl hxs
    | cons x t => rfl

/-- C2 witness: the amended statement evaluated on concrete sequences. -/
theorem C2_parse_right_amended_witness :
    (([.intV 2, .intV 3, .intV 5] : List SVal).foldl parseCallItem
        ([], [], SVal.null)).1 = [.intV 2, .intV 3, .intV 5] ∧
    helpers.parseRight (.listV [.intV 2, .intV 3, .intV 5])
      = .ok (some [.intV 2, .intV 3], .intV 5) := by
  constructor
  · have h := (C2_parse_right_amended.1 [.intV 2, .intV 3, .intV 5]
      (by decide)).2
    simpa using h
  · have h := C2_parse_right_amended.2 [.intV 2, .intV 3, .intV 5] (by simp)
    simpa using h

/-! Claim C9. -/

/-- C9: for a feature assigning to the reserved `PACKAGE` binding when
package introspection produced an empty scope (`ready = false`), the
result the feature is compared with is forced to the `ERROR` sentinel
regardless of what the attempted call or read would produce (the host
environment is universally quantified and never consulted), and the scope
is left unchanged. -/
theorem C9_package_not_ready (env : FnEnv) (f : Feature)
    (scope : List (String × SVal)) (a k e : SVal)
    (hc : f.comment = none) (hs : skipTruthy f.skip = false)
    (ha : f.assign = some "PACKAGE")
    (h1 : dereference_value scope (.listV f.args) = .ok a)
    (h2 : dereference_value scope (.dictV f.kwargs) = .ok k)
    (h3 : dereference_value scope f.result = .ok e) :
    test_feature env f scope false = .ok (compareSuccess (.strV "ERROR") e, scope) := by
  cases hcall : f.call <;>
    · simp [test_feature, hc, hs, hcall, ha, h1, h2, h3]
      rfl

/-- C9 witness: a `PACKAGE` assignment under a not-ready scope evaluated
concretely (the expected value `ERROR` makes the forced result pass). -/
theorem C9_package_not_ready_witness :
    test_feature (fun _ _ _ => .error ())
      { assign := some "PACKAGE", result := .strV "ERROR" } [] false
      = .ok (true, []) := by
  exact C9_package_not_ready (fun _ _ _ => .error ())
    { assign := some "PACKAGE", result := .strV "ERROR" } [] (.listV [])
    (.dictV []) (.strV "ERROR") rfl rfl rfl rfl rfl rfl

theorem exceptBind_ok {α β ε : Type} (a : α) (f : α → Except ε β) :
    ((Except.ok a : Except ε α) >>= f) = f a := rfl

theorem exceptBind_err {α β ε : Type} (e : ε) (f : α → Except ε β) :
    ((Except.error e : Except ε α) >>= f) = .error e := rfl

theorem isNullV_eq_false {v : SVal} (h : v ≠ .null) : isNullV v = false := by
  cases v <;> first | exact absurd rfl h | rfl

/-! Claim C5. -/

/-- C5 counterexample: a missing path segment is not an error in the cli
resolver — reading a missing name yields `None` from the mapping lookup,
so the result of a read feature over an absent path is `null`, not the
`ERROR` sentinel the claim requires (the feature fails by plain
comparison, not by error recovery). -/
theorem C5_counterexample :
    pathGet [] "missing" = .ok .null ∧
    executePhase (fun _ _ _ => .error ()) []
      { property := some "missing", result := .strV "v" }
      (.listV []) (.dictV []) (.strV "v") = .null ∧
    SVal.null ≠ .strV "ERROR" ∧
    test_feature (fun _ _ _ => .error ())
      { property := some "missing", result := .strV "v" } [] true
      = .ok (false, []) := by
  refine ⟨rfl, rfl, ?_, rfl⟩
  intro h
  simp at h

/-- C5 amended: every exception raised inside the resolution/invocation
phase is recovered locally into the `ERROR` sentinel and no exception
escapes that phase of the feature boundary (`test_feature` returns an
`ok` outcome for executed non-assignment features); a missing path
segment, however, silently resolves to `null` — it only produces `ERROR`
for call features, where invoking the resolved `null` raises. -/
theorem C5_error_recovery_amended :
    (∀ (env : FnEnv) scope (f : Feature) (a k e : SVal) (p : String),
      f.property = some p →
      execInner env scope p f.call a k = .error () →
      executePhase env scope f a k e = .strV "ERROR") ∧
    (∀ (env : FnEnv) scope (f : Feature) (a k e v : SVal) (p : String),
      f.property = some p →
      execInner env scope p f.call a k = .ok v →
      executePhase env scope f a k e = v) ∧
    (∀ (env : FnEnv) (f : Feature) scope (ready : Bool) (a k e : SVal),
      f.comment = none → skipTruthy f.skip = false → f.assign = none →
      (if f.call then dereference_value scope (.listV f.args)
        else .ok (.listV f.args)) = .ok a →
      (if f.call then dereference_value scope (.dictV f.kwargs)
        else .ok (.dictV f.kwargs)) = .ok k →
      dereference_value scope f.result = .ok e →
      test_feature env f scope ready
        = .ok (compareSuccess (executePhase env scope f a k e) e, scope)) ∧
    (∀ (env : FnEnv) scope (p : String) (a k : SVal),
      pathGet scope p = .ok .null →
      execInner env scope p true a k = .error ()) := by
  refine ⟨?_, ?_, ?_, ?_⟩
  · intro env scope f a k e p hp herr
    simp [executePhase, hp, herr]
  · intro env scope f a k e v p hp hok
    simp [executePhase, hp, hok]
  · intro env f scope ready a k e hc hs hassign h1 h2 h3
    cases hcall : f.call <;> rw [hcall] at h1 h2 <;>
      · simp only [if_true, if_false, Bool.false_eq_true, reduceIte,
          Except.ok.injEq] at h1 h2
        first
        | (subst h1; subst h2;
           simp [test_feature, hc, hs, hcall, h3, hassign]; rfl)
        | (simp [test_feature, hc, hs, hcall, h1, h2, h3, hassign]; rfl)
  · intro env scope p a k h
    simp [execInner, h]
    rfl

/-- C5 witness: the amended statement evaluated concretely — a call on a
missing path recovers to `ERROR`, a read feature over a missing path
completes without an escaping exception, and the inner invocation of the
resolved `null` is the error being recovered. -/
theorem C5_error_recovery_amended_witness :
    executePhase (fun _ _ _ => .error ()) []
      { property := some "f", call := true } (.listV []) (.dictV []) .null
      = .strV "ERROR" ∧
    test_feature (fun _ _ _ => .error ())
      { property := some "g", result := .intV 1 } [] true = .ok (false, []) ∧
    execInner (fun _ _ _ => .error ()) [] "f" true (.listV []) (.dictV [])
      = .error () := by
  refine ⟨?_, ?_, ?_⟩
  · exact C5_error_recovery_amended.1 (fun _ _ _ => .error ()) []
      { property := some "f", call := true } (.listV []) (.dictV []) .null
      "f" rfl rfl
  · exact C5_error_recovery_amended.2.2.1 (fun _ _ _ => .error ())
      { property := some "g", result := .intV 1 } [] true (.listV [])
      (.dictV []) (.intV 1) rfl rfl rfl rfl rfl rfl
  · exact C5_error_recovery_amended.2.2.2 (fun _ _ _ => .error ()) [] "f"
      (.listV []) (.dictV []) rfl

/-! Claim C4. -/

/-- C4 counterexample: an assignment through a missing intermediate
segment does not proceed — the owner walk yields `null` and the final
`setattr` raises an uncaught `AttributeError`, although the full path
`a.B` is unbound (its lookup yields `null`), contradicting the claim that
assignment to an unbound path proceeds without error. -/
theorem C4_counterexample :
    pathGet [] "a.B" = .ok .null ∧
    test_feature (fun _ _ _ => .error ())
      { assign := some "a.B", result := .intV 42 } [] true = .error () :=
  ⟨rfl, rfl⟩

/-- C4 amended: for an assignment target whose final segment is
all-uppercase, a currently bound non-null value makes the feature raise a
fatal uncaught error (not a recorded failure), and the assignment
proceeds without error when the final lookup yields `null` — provided the
owner walk succeeds and the write-back itself succeeds (a missing
intermediate segment makes the write-back raise instead). -/
theorem C4_constant_protection_amended (env : FnEnv) (f : Feature)
    (scope : List (String × SVal)) (ready : Bool)
    (a k e owner cur : SVal) (t : String)
    (hc : f.comment = none) (hs : skipTruthy f.skip = false)
    (ha : f.assign = some t)
    (hnp : ¬(t = "PACKAGE" ∧ ready = false))
    (h1 : (if f.call then dereference_value scope (.listV f.args)
        else .ok (.listV f.args)) = .ok a)
    (h2 : (if f.call then dereference_value scope (.dictV f.kwargs)
        else .ok (.dictV f.kwargs)) = .ok k)
    (h3 : dereference_value scope f.result = .ok e)
    (howner : (splitOnChar '.' t).dropLast.foldlM get_property
        (SVal.dictV scope) = .ok owner)
    (hcur : get_property owner ((splitOnChar '.' t).getLastD "") = .ok cur) :
    (cur ≠ .null → pyIsUpper ((splitOnChar '.' t).getLastD "") = true →
      test_feature env f scope ready = .error ()) ∧
    (∀ scope2, cur = .null →
      setValAt (SVal.dictV scope) (splitOnChar '.' t)
          (executePhase env scope f a k e) = .ok (.dictV scope2) →
      test_feature env f scope ready
        = .ok (compareSuccess (executePhase env scope f a k e) e, scope2)) := by
  rw [List.getLastD_eq_getLast?] at hcur
  constructor
  · intro hne hup
    rw [List.getLastD_eq_getLast?] at hup
    have hcn := isNullV_eq_false hne
    cases hcall : f.call <;> rw [hcall] at h1 h2 <;>
      · simp only [if_true, if_false, Bool.false_eq_true, reduceIte,
          Except.ok.injEq] at h1 h2
        first
        | (subst h1; subst h2;
           simp [test_feature, hc, hs, hcall, h3, ha, hnp, howner, hcur,
             hcn, hup, exceptBind_ok])
        | (simp [test_feature, hc, hs, hcall, h1, h2, h3, ha, hnp, howner,
             hcur, hcn, hup, exceptBind_ok])
  · intro scope2 hnull hset
    subst hnull
    cases hcall : f.call <;> rw [hcall] at h1 h2 <;>
      · simp only [if_true, if_false, Bool.false_eq_true, reduceIte,
          Except.ok.injEq] at h1 h2
        first
        | (subst h1; subst h2;
           simp [test_feature, hc, hs, hcall, h3, ha, hnp, howner, hcur,
             hset, isNullV, exceptBind_ok])
        | (simp [test_feature, hc, hs, hcall, h1, h2, h3, ha, hnp, howner,
             hcur, hset, isNullV, exceptBind_ok])

/-- C4 witness: the amended statement evaluated concretely — assigning to
the bound uppercase constant `X` raises, assigning to `X` bound to `null`
proceeds and stores the value. -/
theorem C4_constant_protection_amended_witness :
    test_feature (fun _ _ _ => .error ())
      { assign := some "X", result := .intV 1 } [("X", .intV 9)] true
      = .error () ∧
    test_feature (fun _ _ _ => .error ())
      { assign := some "X", result := .intV 1 } [("X", .null)] true
      = .ok (true, [("X", .intV 1)]) := by
  constructor
  · exact (C4_constant_protection_amended (fun _ _ _ => .error ())
      { assign := some "X", result := .intV 1 } [("X", .intV 9)] true
      (.listV []) (.dictV []) (.intV 1) (.dictV [("X", .intV 9)]) (.intV 9)
      "X" rfl rfl rfl (by simp) rfl rfl rfl rfl rfl).1 (by simp) rfl
  · exact (C4_constant_protection_amended (fun _ _ _ => .error ())
      { assign := some "X", result := .intV 1 } [("X", .null)] true
      (.listV []) (.dictV []) (.intV 1) (.dictV [("X", .null)]) .null
      "X" rfl rfl rfl (by simp) rfl rfl rfl rfl rfl).2
      [("X", .intV 1)] rfl rfl

/-! Claim C7. -/

/-- C7: a reference marker (single-key mapping with `null` value) resolves
through the scope it is handed — inside `test_feature` that is the scope
at the moment the feature executes, as the two-feature run below shows —
only one level of indirection is applied (a marker-shaped resolved value
is returned verbatim), and literals pass through unchanged with
collections dereferenced elementwise (deep copy is the identity on the
modelled immutable values). -/
theorem C7_dereference_semantics :
    (∀ scope (p : String),
      dereference_value scope (.dictV [(p, .null)]) = pathGet scope p) ∧
    (∀ scope (p q : String),
      pathGet scope p = .ok (.dictV [(q, .null)]) →
      dereference_value scope (.dictV [(p, .null)])
        = .ok (.dictV [(q, .null)])) ∧
    (∀ scope n, dereference_value scope (.intV n) = .ok (.intV n)) ∧
    (∀ scope s, dereference_value scope (.strV s) = .ok (.strV s)) ∧
    (∀ scope b, dereference_value scope (.boolV b) = .ok (.boolV b)) ∧
    (∀ scope, dereference_value scope .null = .ok .null) ∧
    (∀ scope f, dereference_value scope (.funcV f) = .ok (.funcV f)) ∧
    (∀ scope xs, dereference_value scope (.tupleV xs) = .ok (.tupleV xs)) ∧
    (∀ scope xs, dereference_value scope (.listV xs)
        = SVal.listV <$> derefList scope xs) ∧
    (runFeatures (fun f as _ => if f = "idf" then .ok (as.headD .null)
        else .error ()) true
      [{ assign := some "x", result := .intV 2 },
       { property := some "idf", call := true,
         args := [.dictV [("x", .null)]], result := .intV 2 }]
      [("x", .intV 1), ("idf", .funcV "idf")] 0
      = .ok (2, [("x", .intV 2), ("idf", .funcV "idf")])) ∧
    (dereference_value [("x", .intV 1), ("idf", .funcV "idf")]
        (.dictV [("x", .null)]) = .ok (.intV 1)) := by
  refine ⟨fun scope p => rfl, ?_, fun scope n => rfl, fun scope s => rfl,
    fun scope b => rfl, fun scope => rfl, fun scope f => rfl,
    fun scope xs => rfl, fun scope xs => rfl, rfl, rfl⟩
  intro scope p q h
  calc dereference_value scope (.dictV [(p, .null)])
      = pathGet scope p := rfl
    _ = .ok (.dictV [(q, .null)]) := h

/-- C7 witness: the one-level-of-indirection part evaluated concretely —
`a` is bound to a marker-shaped value, which is returned verbatim instead
of being resolved to `b`'s value. -/
theorem C7_dereference_semantics_witness :
    dereference_value [("a", .dictV [("b", .null)]), ("b", .intV 7)]
      (.dictV [("a", .null)]) = .ok (.dictV [("b", .null)]) := by
  exact C7_dereference_semantics.2.1
    [("a", .dictV [("b", .null)]), ("b", .intV 7)] "a" "b" rfl

/-! Claim C6. -/

/-- C6 counterexample: a document whose malformed entry comes after the
first entry makes `parse_spec` raise, and that exception aborts the whole
`parse_specs` run — the following well-formed document (which parses fine
on its own) is never processed, contradicting the claim that such a
document is dropped without aborting the rest. -/
theorem C6_counterexample :
    parse_spec introFix docBadTail = .error () ∧
    parse_specs introFix [] [docBadTail, docPkgOnly] = .error () ∧
    (parse_specs introFix [] [docPkgOnly]).map List.length = .ok 1 :=
  ⟨rfl, rfl, rfl⟩

/-- C6 amended: a document whose first entry fails to parse (or is not a
valid `PACKAGE` assignment) is dropped and the remaining documents are
processed unchanged; a document with a malformed entry after the first
makes the whole run fail instead. -/
theorem C6_document_drop_amended
    (introspect : String → List (String × SVal))
    (hooks : List (String × SVal)) (doc : SVal) (docs : List SVal) :
    (parse_spec introspect doc = .ok none →
      parse_specs introspect hooks (doc :: docs)
        = parse_specs introspect hooks docs) ∧
    (parse_spec introspect doc = .error () →
      parse_specs introspect hooks (doc :: docs) = .error ()) := by
  constructor
  · intro h
    simp [parse_specs, collectSpecs, h]
  · intro h
    simp [parse_specs, collectSpecs, h]
    rfl

/-- C6 witness: the amended statement evaluated concretely — an empty
document is dropped with the rest processed, a bad-tail document aborts
the run. -/
theorem C6_document_drop_amended_witness :
    parse_specs introFix [] [.listV [], docPkgOnly]
      = parse_specs introFix [] [docPkgOnly] ∧
    parse_specs introFix [] [docBadTail] = .error () := by
  constructor
  · exact (C6_document_drop_amended introFix [] (.listV []) [docPkgOnly]).1 rfl
  · exact (C6_document_drop_amended introFix [] docBadTail []).2 rfl

/-! Claim C3. -/

theorem pyOr_self (a : Option Bool) : pyOr a a = a := by
  unfold pyOr
  split <;> rfl

theorem inheritedSkip_succ (fs : List Feature) (i : Nat) (f : Feature)
    (h : fs[i]? = some f) :
    inheritedSkip fs (i + 1)
      = if f.comment.isSome then f.skip else inheritedSkip fs i := by
  unfold inheritedSkip
  rw [List.take_succ, h, List.foldl_append]
  simp only [Option.toList_some, List.foldl_cons, List.foldl_nil]

theorem featLoop_cons_ok {f : Feature} {fs : List Feature} {i : Nat}
    {live : List (Nat × Feature)} {skip : Option Bool} {stats : Stats}
    {out : List (Nat × Feature) × Stats}
    (h : featLoop (f :: fs) i live skip stats = .ok out) :
    ∃ live1 : List (Nat × Feature), live1.Sublist live ∧
      featLoop fs (i + 1)
        (updateLive live1 i
          (pyOr (if f.comment.isSome then f.skip else skip) f.skip))
        (if f.comment.isSome then f.skip else skip)
        (statsStep f stats) = .ok out := by
  rw [featLoop] at h
  by_cases hdel : f.assign = some "PACKAGE" ∧ i ≠ 0
  · rw [if_pos hdel] at h
    by_cases hlen : i < live.length
    · rw [if_pos hlen, exceptBind_ok] at h
      exact ⟨live.eraseIdx i, List.eraseIdx_sublist live i, h⟩
    · rw [if_neg hlen, exceptBind_err] at h
      exact Except.noConfusion h
  · rw [if_neg hdel, exceptBind_ok] at h
    exact ⟨live, List.Sublist.refl live, h⟩

theorem featLoop_resolves (fs0 : List Feature) :
    ∀ (l : List Feature) (i : Nat) (live : List (Nat × Feature))
      (stats : Stats) (out : List (Nat × Feature) × Stats),
      l = fs0.drop i →
      (∀ j g, (j, g) ∈ live →
        (j < i ∧ resolvedAt fs0 j = some g) ∨ (i ≤ j ∧ fs0[j]? = some g)) →
      featLoop l i live (inheritedSkip fs0 i) stats = .ok out →
      ∀ j g, (j, g) ∈ out.1 → resolvedAt fs0 j = some g := by
  intro l
  induction l with
  | nil =>
    intro i live stats out hdrop hinv hrun j g hmem
    simp only [featLoop, Except.ok.injEq] at hrun
    rw [← hrun] at hmem
    rcases hinv j g hmem with ⟨_, hres⟩ | ⟨hij, hget⟩
    · exact hres
    · exfalso
      have hlen : fs0.length ≤ i := List.drop_eq_nil_iff.mp hdrop.symm
      have hnone : fs0[j]? = none := by
        rw [List.getElem?_eq_none_iff]
        omega
      rw [hnone] at hget
      exact Option.noConfusion hget
  | cons f l2 ih =>
    intro i live stats out hdrop hinv hrun j g hmem
    have hfi : fs0[i]? = some f := by
      have h0 : (fs0.drop i)[0]? = some f := by
        rw [← hdrop]
        simp
      rw [List.getElem?_drop] at h0
      simpa using h0
    have hl2 : l2 = fs0.drop (i + 1) := by
      have := congrArg List.tail hdrop
      simpa [List.tail_drop] using this
    obtain ⟨live1, hsub, hrun⟩ := featLoop_cons_ok hrun
    have hinv1 : ∀ j g, (j, g) ∈ live1 →
        (j < i ∧ resolvedAt fs0 j = some g) ∨ (i ≤ j ∧ fs0[j]? = some g) :=
      fun j g hm => hinv j g (hsub.mem hm)
    have hst : (if f.comment.isSome then f.skip else inheritedSkip fs0 i)
        = inheritedSkip fs0 (i + 1) :=
      (inheritedSkip_succ fs0 i f hfi).symm
    rw [hst] at hrun
    refine ih (i + 1) _ _ out hl2 ?_ hrun j g hmem
    intro jj gg hm
    simp only [updateLive, List.mem_map] at hm
    obtain ⟨⟨j0, g0⟩, hm0, heq⟩ := hm
    by_cases hji : j0 = i
    · rw [if_pos hji] at heq
      injection heq with hj hg
      subst hj
      subst hg
      rcases hinv1 j0 g0 hm0 with ⟨hlt, _⟩ | ⟨_, hget⟩
      · exact absurd (hji ▸ hlt) (lt_irrefl i)
      · left
        rw [hji] at hget
        have hg0 : g0 = f := by
          rw [hfi] at hget
          exact (Option.some.inj hget).symm
        subst hg0
        refine ⟨by omega, ?_⟩
        rw [hji, resolvedAt, hfi]
        by_cases hcom : g0.comment.isSome = true
        · rw [← hst]
          simp only [hcom, if_true, reduceIte, pyOr_self, Option.map_some']
        · rw [← hst]
          simp only [hcom, if_false, Bool.false_eq_true, reduceIte,
            Option.map_some']
    · rw [if_neg hji] at heq
      injection heq with hj hg
      subst hj
      subst hg
      rcases hinv1 j0 g0 hm0 with ⟨hlt, hres⟩ | ⟨hge, hget⟩
      · exact Or.inl ⟨Nat.lt_succ_of_lt hlt, hres⟩
      · exact Or.inr ⟨by omega, hget⟩

theorem inheritedSkip_last_comment (fs : List Feature) (c : Nat) (fc : Feature)
    (hc : fs[c]? = some fc) (hcom : fc.comment.isSome = true) :
    ∀ j, c < j →
      (∀ k fk, c < k → k < j → fs[k]? = some fk → fk.comment = none) →
      inheritedSkip fs j = fc.skip := by
  intro j
  induction j with
  | zero => intro h _; exact absurd h (Nat.not_lt_zero c)
  | succ j ih =>
    intro hcj hno
    by_cases hj : c = j
    · subst hj
      rw [inheritedSkip_succ fs c fc hc, if_pos hcom]
    · have hcj2 : c < j := by omega
      cases hgj : fs[j]? with
      | none =>
        have hlen : fs.length ≤ j := List.getElem?_eq_none_iff.mp hgj
        have heq : inheritedSkip fs (j + 1) = inheritedSkip fs j := by
          unfold inheritedSkip
          rw [List.take_of_length_le hlen, List.take_of_length_le (by omega)]
        rw [heq]
        exact ih hcj2 (fun k fk h1 h2 h3 => hno k fk h1 (by omega) h3)
      | some fj =>
        have hfjc : fj.comment = none := hno j fj hcj2 (Nat.lt_succ_self j) hgj
        rw [inheritedSkip_succ fs j fj hgj, hfjc]
        simp only [Option.isSome_none, Bool.false_eq_true, reduceIte]
        exact ih hcj2 (fun k fk h1 h2 h3 => hno k fk h1 (by omega) h3)

/-- C3 counterexample: after a `not:py` comment (filter true for this
host) the feature `py:f==` carries its own explicitly false filter, yet
the pipeline leaves it skipped (`some true`) — the feature's own filter
does not override the inherited skip state, it is or-ed with it. -/
theorem C3_counterexample :
    (parse_feature (.dictV [("py:f==", .strV "ERROR")])).map Feature.skip
      = .ok (some false) ∧
    (parse_specs introFix [] [docSkipDemo]).map
        (fun l => l.map (fun s => s.features.map Feature.skip))
      = .ok [[none, some true, some true]] ∧
    some true ≠ (some false : Option Bool) := by
  refine ⟨rfl, rfl, by simp⟩

/-- C3 amended: every surviving feature of the finishing loop carries the
skip value `inherited or own`, where the inherited state is the filter of
the last preceding comment (false before any comment); a comment without
a filter resets the inherited state to the falsy `None`, after which a
feature's own filter alone decides; an explicitly false own filter does
not override a true inherited state (`pyOr (some true) (some false)` is
`some true`). -/
theorem C3_skip_propagation_amended :
    (∀ (fs : List Feature) (out : List (Nat × Feature) × Stats),
      featLoop fs 0 fs.enum (some false) {} = .ok out →
      ∀ j g, (j, g) ∈ out.1 → resolvedAt fs j = some g) ∧
    (∀ (fs : List Feature) (c : Nat) (fc : Feature) (j : Nat),
      fs[c]? = some fc → fc.comment.isSome = true → c < j →
      (∀ k fk, c < k → k < j → fs[k]? = some fk → fk.comment = none) →
      inheritedSkip fs j = fc.skip) ∧
    (∀ b, pyOr none b = b) ∧
    pyOr (some true) (some false) = some true := by
  refine ⟨?_, ?_, fun b => rfl, rfl⟩
  · intro fs out hrun j g hmem
    refine featLoop_resolves fs fs 0 fs.enum {} out rfl ?_ hrun j g hmem
    intro j g hm
    exact Or.inr ⟨Nat.zero_le j, List.mk_mem_enum_iff_getElem?.mp hm⟩
  · intro fs c fc j h1 h2 h3 h4
    exact inheritedSkip_last_comment fs c fc h1 h2 j h3 h4

/-- C3 witness: the amended statement evaluated on the concrete feature
list — the feature after the filtered comment resolves to skip
`some true`, and the inherited state at its index is the comment's
filter. -/
theorem C3_skip_propagation_amended_witness :
    resolvedAt fsDemo 2
      = some { skip := some true, property := some "f",
               result := .strV "ERROR" } ∧
    inheritedSkip fsDemo 2 = some true := by
  constructor
  · exact C3_skip_propagation_amended.1 fsDemo
      ([(0, { assign := some "PACKAGE", result := .strV "mypkg" }),
        (1, { comment := some "Section one", skip := some true }),
        (2, { skip := some true, property := some "f",
              result := .strV "ERROR" })],
       { features := 3, comments := 1, tests := 2 }) rfl 2
      { skip := some true, property := some "f", result := .strV "ERROR" }
      (.tail _ (.tail _ (.head _)))
  · exact C3_skip_propagation_amended.2.1 fsDemo 1
      { comment := some "Section one", skip := some true } 2 (by simp [fsDemo])
      rfl (by omega) (by intro k fk h1 h2 h3; exact absurd h2 (by omega))

/-! Claim C10. -/

theorem featLoop_stats :
    ∀ (l : List Feature) (i : Nat) (live : List (Nat × Feature))
      (skip : Option Bool) (stats : Stats)
      (out : List (Nat × Feature) × Stats),
      featLoop l i live skip stats = .ok out →
      out.2.features + stats.comments + stats.tests
        = stats.features + out.2.comments + out.2.tests := by
  intro l
  induction l with
  | nil =>
    intro i live skip stats out h
    simp only [featLoop, Except.ok.injEq] at h
    rw [← h]
  | cons f fs ih =>
    intro i live skip stats out h
    obtain ⟨live1, _, h⟩ := featLoop_cons_ok h
    have hrec := ih (i + 1) _ _ _ out h
    by_cases hcom : f.comment.isSome = true <;>
      · simp only [statsStep, hcom, if_true, if_false, Bool.false_eq_true,
          reduceIte] at hrec
        omega

theorem exceptMapM_mem_ok {α β : Type} (f : α → Except Unit β) :
    ∀ (l : List α) (r : List β), exceptMapM f l = .ok r →
      ∀ b ∈ r, ∃ a ∈ l, f a = .ok b := by
  intro l
  induction l with
  | nil =>
    intro r h b hb
    simp only [exceptMapM, Except.ok.injEq] at h
    rw [← h] at hb
    simp at hb
  | cons a t ih =>
    intro r h b hb
    rw [exceptMapM] at h
    cases hfa : f a with
    | error e =>
      rw [hfa, exceptBind_err] at h
      exact Except.noConfusion h
    | ok x =>
      rw [hfa, exceptBind_ok] at h
      cases hmt : exceptMapM f t with
      | error e =>
        rw [hmt, exceptBind_err] at h
        exact Except.noConfusion h
      | ok xs =>
        rw [hmt, exceptBind_ok] at h
        injection h with h2
        rw [← h2] at hb
        rcases List.mem_cons.mp hb with rfl | hbx
        · exact ⟨a, List.mem_cons_self a t, hfa⟩
        · obtain ⟨a2, ha2, hfa2⟩ := ih xs hmt b hbx
          exact ⟨a2, List.mem_cons_of_mem a ha2, hfa2⟩

/-- C10: for every spec returned by `parse_specs`, the stats satisfy
`features = comments + tests` — each counted entry lands in exactly one of
the comment or test buckets — and consequently the displayed ratio
numerator `passed - comments` hitting `tests` is equivalent to the
success condition `passed = features`. -/
theorem C10_stats_invariant (introspect : String → List (String × SVal))
    (hooks : List (String × SVal)) (docs : List SVal)
    (l : List ProcessedSpec)
    (h : parse_specs introspect hooks docs = .ok l) :
    ∀ ps ∈ l, ps.stats.features = ps.stats.comments + ps.stats.tests ∧
      ∀ passed : Nat, (passed = ps.stats.features ↔
        (passed : Int) - ps.stats.comments = (ps.stats.tests : Int)) := by
  intro ps hps
  rw [parse_specs] at h
  cases hcol : collectSpecs introspect docs [] with
  | error e =>
    rw [hcol, exceptBind_err] at h
    exact Except.noConfusion h
  | ok m =>
    rw [hcol, exceptBind_ok] at h
    obtain ⟨s, _, hs⟩ := exceptMapM_mem_ok _ _ l h ps hps
    rw [processSpec] at hs
    cases hfl : featLoop s.features 0 s.features.enum (some false) {} with
    | error e =>
      rw [hfl, exceptBind_err] at hs
      exact Except.noConfusion hs
    | ok r =>
      rw [hfl, exceptBind_ok] at hs
      injection hs with h2
      have hinv := featLoop_stats s.features 0 s.features.enum (some false)
        {} r hfl
      rw [← h2]
      simp only [] at hinv ⊢
      constructor
      · omega
      · intro passed
        constructor <;> intro hp <;> omega

/-- C10 witness: the invariant and the ratio equivalence evaluated on the
concrete one-document run. -/
theorem C10_stats_invariant_witness :
    psPkgOnly.stats.features
      = psPkgOnly.stats.comments + psPkgOnly.stats.tests ∧
    (1 = psPkgOnly.stats.features ↔
      (1 : Int) - psPkgOnly.stats.comments = (psPkgOnly.stats.tests : Int)) := by
  have h := C10_stats_invariant introFix [] [docPkgOnly] [psPkgOnly] rfl
    psPkgOnly (List.mem_singleton.mpr rfl)
  exact ⟨h.1, h.2 1⟩
